import Mathlib

/-!
Verification of the Decision Ledger & Stage-Progression Engine of the
`ai-cofounder-app` repository.

The definitions below are a shallow embedding of the TypeScript source:

* `src/backend/src/github/client.ts` — `GitHubFuturesClient.makeDecision`,
  `GitHubFuturesClient.findDecision`, `parseDecisionFromCommit`;
* `src/backend/src/workflows/analysis-workflow.ts` —
  `checkRequirementsComplete`, `parseAssumptions`, and the
  `validate-completeness` step of the analysis phase.

JavaScript strings are modelled as Lean `String`s manipulated through their
`List Char` data; JavaScript numbers are modelled as exact rationals `ℚ`
(the numeric values appearing in the program are small decimal literals),
with `NaN` represented by `none` in an `Option ℚ` wherever the source can
produce it (`0/0`, `parseFloat` of a digit-free string).
-/

set_option maxRecDepth 8000

/-! ## JavaScript string primitives -/

/-- Whitespace characters recognised by JavaScript `trim` / `parseFloat`
(the characters that occur in this code base). -/
def isWsChar (c : Char) : Bool :=
  c == ' ' || c == '\t' || c == '\n' || c == '\r'

/-- JavaScript `s.split(sep)` for a single-character separator, on char lists.
`split` of the empty string is `[""]`, and a trailing separator yields a
trailing empty field, exactly as in JavaScript. -/
def jsSplitChars (sep : Char) : List Char → List (List Char)
  | [] => [[]]
  | c :: t =>
    if c == sep then [] :: jsSplitChars sep t
    else
      match jsSplitChars sep t with
      | [] => [[c]]
      | h :: r => (c :: h) :: r

/-- JavaScript `s.trim()` on char lists. -/
def jsTrimChars (l : List Char) : List Char :=
  ((l.dropWhile isWsChar).reverse.dropWhile isWsChar).reverse

/-- Boolean prefix test (JavaScript `startsWith`). -/
def isPre : List Char → List Char → Bool
  | [], _ => true
  | _ :: _, [] => false
  | p :: ps, c :: cs => p == c && isPre ps cs

/-- Boolean substring test (JavaScript `includes`). -/
def hasSub (n : List Char) : List Char → Bool
  | [] => n.isEmpty
  | c :: t => isPre n (c :: t) || hasSub n t

/-- Numeric value of a list of decimal digit characters (most significant
first), as read by `parseFloat`. -/
def digitsVal (l : List Char) : ℕ :=
  l.foldl (fun acc c => 10 * acc + (c.toNat - 48)) 0

/-- JavaScript `parseFloat`, restricted to the plain decimal notation the
program produces (no exponent part occurs in any value this code writes or
reads).  `none` models `NaN`.  The value of the digit string `ip.fp` is the
exact rational `(ip * 10^k + fp) / 10^k`, built with `mkRat` so that the
kernel can evaluate it. -/
def jsParseFloatChars (l : List Char) : Option ℚ :=
  let l1 := l.dropWhile isWsChar
  let signAndRest : Bool × List Char :=
    match l1 with
    | '-' :: t => (true, t)
    | '+' :: t => (false, t)
    | _ => (false, l1)
  let neg := signAndRest.1
  let l2 := signAndRest.2
  let ip := l2.takeWhile Char.isDigit
  let l3 := l2.drop ip.length
  let fp :=
    match l3 with
    | '.' :: t => t.takeWhile Char.isDigit
    | _ => []
  if ip.isEmpty && fp.isEmpty then none
  else
    let mag : ℚ :=
      mkRat (digitsVal ip * 10 ^ fp.length + digitsVal fp) (10 ^ fp.length)
    some (if neg then -mag else mag)

/-- Least `k ≤ 60` with `den ∣ 10 ^ k`, i.e. the number of decimal digits
needed to write a terminating rational exactly. -/
def minPow10Exp (den : ℕ) : Option ℕ :=
  (List.range 61).find? (fun k => 10 ^ k % den == 0)

/-- Left-pad a digit string with zeros to length `k`. -/
def padLeftZeros (s : List Char) (k : ℕ) : List Char :=
  List.replicate (k - s.length) '0' ++ s

/-- JavaScript number-to-string conversion (template-literal interpolation
`${x}`) for the values this program handles: every JavaScript number is a
binary float, whose decimal expansion terminates, and the magnitudes here
(scores in `[0,1]`) are printed in plain decimal notation.  The final
fallback branch is unreachable for values of JavaScript origin. -/
def qToDecimalString (q : ℚ) : String :=
  let sign := if q < 0 then "-" else ""
  let n := q.num.natAbs
  let den := q.den
  match minPow10Exp den with
  | some 0 => sign ++ toString n
  | some k =>
    let m := n * 10 ^ k / den
    sign ++ toString (m / 10 ^ k) ++ "." ++
      String.mk (padLeftZeros (toString (m % 10 ^ k)).data k)
  | none => sign ++ toString n ++ "/" ++ toString den

/-! ## Requirements-stage completeness
(`analysis-workflow.ts`, `parseAssumptions` lines 869–886 and
`checkRequirementsComplete` lines 831–855) -/

/-- One parsed assumption record: `{ criticality, validated }`.
`criticality = none` models `NaN` (`parseFloat` of a digit-free match). -/
structure Assumption where
  criticality : Option ℚ
  validated : Bool
deriving DecidableEq

/-- The regular-expression search `/criticality: ([0-9.]+)/` on one line:
find the first occurrence of the literal `criticality: ` that is followed by
at least one character in `[0-9.]`, and return the maximal such run
(the capture group). -/
def findCritMatch : List Char → Option (List Char)
  | [] => none
  | c :: t =>
    if isPre "criticality: ".data (c :: t) then
      let rest := (c :: t).drop "criticality: ".data.length
      let run := rest.takeWhile (fun ch => ch.isDigit || ch == '.')
      if run.isEmpty then findCritMatch t else some run
    else findCritMatch t

/-- The body of the `parseAssumptions` loop for one line that starts with
`##`: criticality from the regex match (default `0.5`), validated iff the
line contains `[validated]` or `[x]`. -/
def parseAssumptionLine (line : List Char) : Assumption :=
  let criticality :=
    match findCritMatch line with
    | some run => jsParseFloatChars run
    | none => some (mkRat 1 2)
  let validated := hasSub "[validated]".data line || hasSub "[x]".data line
  ⟨criticality, validated⟩

/-- `parseAssumptions` (analysis-workflow.ts lines 869–886): split the
artifact into lines and turn every line starting with `##` into an
`Assumption`. -/
def parseAssumptions (content : String) : List Assumption :=
  ((jsSplitChars '\n' content.data).filter (fun l => isPre "##".data l)).map
    parseAssumptionLine

/-- JavaScript division `a / b` of two non-negative counts where `a ≤ b`;
`none` models the `NaN` produced by `0 / 0` (for `b ≠ 0`, `mkRat a b` is
exactly the rational `a / b`). -/
def jsDivNat (a b : ℕ) : Option ℚ :=
  if b = 0 then none else some (mkRat a b)

/-- JavaScript `x >= y` where `x` may be `NaN`: comparisons with `NaN` are
false. -/
def jsGE (x : Option ℚ) (y : ℚ) : Bool :=
  match x with
  | none => false
  | some q => decide (y ≤ q)

/-- JavaScript `x > y` where `x` may be `NaN`. -/
def jsGT (x : Option ℚ) (y : ℚ) : Bool :=
  match x with
  | none => false
  | some q => decide (y < q)

/-- Result record of `checkRequirementsComplete`:
`{ complete, reason, details }`. -/
structure ReqCheckResult where
  complete : Bool
  reason : String
  hasRequirements : Bool
  hasAssumptions : Bool
  hasGoals : Bool
  criticalValidationRate : Option ℚ
deriving DecidableEq

/-- The artifact map `content` passed to `checkRequirementsComplete`,
modelled as an association list; `none` models an absent key. -/
def lookupArtifact (content : List (String × String)) (k : String) :
    Option String :=
  (content.find? (fun p => p.1 == k)).map Prod.snd

/-- `checkRequirementsComplete` (analysis-workflow.ts lines 831–855).
`content['X']?.length > n` on an absent key is false; `content['X'] || ''`
yields `''` for an absent key; `validated.length / critical.length` is `NaN`
when there are no critical assumptions, and `NaN >= 0.8` is false. -/
def checkRequirementsComplete (content : List (String × String)) :
    ReqCheckResult :=
  let hasRequirements :=
    match lookupArtifact content "REQUIREMENTS.md" with
    | some s => decide (s.length > 100)
    | none => false
  let hasAssumptions :=
    match lookupArtifact content "ASSUMPTIONS.md" with
    | some s => decide (s.length > 0)
    | none => false
  let hasGoals :=
    match lookupArtifact content "GOALS.md" with
    | some s => decide (s.length > 0)
    | none => false
  let assumptions :=
    parseAssumptions ((lookupArtifact content "ASSUMPTIONS.md").getD "")
  let critical := assumptions.filter (fun a => jsGT a.criticality (mkRat 7 10))
  let validated := critical.filter (fun a => a.validated)
  let validationRate := jsDivNat validated.length critical.length
  let complete :=
    hasRequirements && hasAssumptions && hasGoals &&
      jsGE validationRate (mkRat 8 10)
  { complete := complete
    reason :=
      if complete then "Requirements stage complete"
      else "Requirements incomplete"
    hasRequirements := hasRequirements
    hasAssumptions := hasAssumptions
    hasGoals := hasGoals
    criticalValidationRate := validationRate }

/-! ## Concrete artifact sets for the requirements stage -/

/-- A requirements artifact longer than the 100-character minimum. -/
def reqsOkText : String := String.mk (List.replicate 101 'r')

/-- An assumptions artifact whose parsed assumptions all have
criticality ≤ 0.7, so that the critical set is empty. -/
def c3Assumptions : String :=
  "## Only Standard Assumption (criticality: 0.5)\n## Another (criticality: 0.3)"

/-- Artifact set with requirements, assumptions and goals present and zero
critical assumptions. -/
def c3Content : List (String × String) :=
  [("REQUIREMENTS.md", reqsOkText), ("ASSUMPTIONS.md", c3Assumptions),
   ("GOALS.md", "Ship it")]

/-- An assumptions artifact parsing to criticalities 0.8, 0.75, 0.5, 0.3
with the first two validated. -/
def c8Assumptions : String :=
  "## A (criticality: 0.8) [validated]\n## B (criticality: 0.75) [validated]\n## C (criticality: 0.5)\n## D (criticality: 0.3)"

/-- Artifact set for the spec's requirements-stage scenario. -/
def c8Content : List (String × String) :=
  [("REQUIREMENTS.md", reqsOkText), ("ASSUMPTIONS.md", c8Assumptions),
   ("GOALS.md", "Ship it")]

/-- C3: the spec claims that with all three artifacts present and zero
critical assumptions the requirements evaluator returns `complete = true`
(the critical-validation clause being vacuous).  The code computes
`validated.length / critical.length = 0 / 0 = NaN` and `NaN >= 0.8` is
false, so it returns `complete = false` on exactly such an artifact set:
all three presence flags hold, the critical set is empty, the rate is `NaN`
(`none`), and `complete` is false. -/
theorem c3_zero_critical_yields_incomplete :
    (checkRequirementsComplete c3Content).hasRequirements = true ∧
    (checkRequirementsComplete c3Content).hasAssumptions = true ∧
    (checkRequirementsComplete c3Content).hasGoals = true ∧
    ((parseAssumptions c3Assumptions).filter
      (fun a => jsGT a.criticality (mkRat 7 10))).length = 0 ∧
    (checkRequirementsComplete c3Content).criticalValidationRate = none ∧
    (checkRequirementsComplete c3Content).complete = false := by
  decide

/-- C8: for every artifact set whose requirements artifact exceeds 100
characters, whose assumptions and goals artifacts are non-empty, and whose
assumptions artifact parses to four assumptions with criticalities
0.8, 0.75, 0.5, 0.3 of which the first two are validated, the requirements
evaluator computes a critical-validation rate of 2/2 = 1 ≥ 0.8 and returns
`complete = true`. -/
theorem c8_two_critical_validated_complete
    (content : List (String × String)) (r a g : String)
    (hr : lookupArtifact content "REQUIREMENTS.md" = some r)
    (ha : lookupArtifact content "ASSUMPTIONS.md" = some a)
    (hg : lookupArtifact content "GOALS.md" = some g)
    (hrlen : r.length > 100) (halen : a.length > 0) (hglen : g.length > 0)
    (hparse : parseAssumptions a =
      [⟨some (mkRat 8 10), true⟩, ⟨some (mkRat 3 4), true⟩,
       ⟨some (mkRat 1 2), false⟩, ⟨some (mkRat 3 10), false⟩]) :
    (checkRequirementsComplete content).complete = true ∧
    (checkRequirementsComplete content).criticalValidationRate = some 1 := by
  have hfilter :
      ([⟨some (mkRat 8 10), true⟩, ⟨some (mkRat 3 4), true⟩,
        ⟨some (mkRat 1 2), false⟩,
        ⟨some (mkRat 3 10), false⟩] : List Assumption).filter
        (fun a => jsGT a.criticality (mkRat 7 10)) =
      [⟨some (mkRat 8 10), true⟩, ⟨some (mkRat 3 4), true⟩] := by decide
  simp only [checkRequirementsComplete, hr, ha, hg, Option.getD_some, hparse,
    hfilter]
  simp only [decide_eq_true hrlen, decide_eq_true halen, decide_eq_true hglen]
  decide

/-- Witness for `c8_two_critical_validated_complete` at the concrete
artifact set `c8Content`. -/
theorem c8_witness :
    (checkRequirementsComplete c8Content).complete = true ∧
    (checkRequirementsComplete c8Content).criticalValidationRate = some 1 :=
  c8_two_critical_validated_complete c8Content reqsOkText c8Assumptions
    "Ship it" (by decide) (by decide) (by decide) (by decide) (by decide)
    (by decide) (by decide)

/-! ## Analysis-stage completeness
(`analysis-workflow.ts`, `validate-completeness` step, lines 225–259) -/

/-- Character comparison, optionally case-insensitive (the `i` regex
flag). -/
def charEqCI (ci : Bool) (a b : Char) : Bool :=
  if ci then a.toLower == b.toLower else a == b

/-- Prefix test under optional case-insensitivity. -/
def isPreCI (ci : Bool) : List Char → List Char → Bool
  | [], _ => true
  | _ :: _, [] => false
  | p :: ps, c :: cs => charEqCI ci p c && isPreCI ci ps cs

/-- Fuel-driven scan for `countLit`; one unit of fuel per scan position
(each step consumes at least one character, so `l.length` fuel always
suffices). -/
def countLitAux (pat : List Char) : ℕ → List Char → ℕ
  | 0, _ => 0
  | _, [] => 0
  | fuel + 1, c :: t =>
    if pat.isEmpty then 0
    else if isPre pat (c :: t) then
      1 + countLitAux pat fuel (t.drop (pat.length - 1))
    else countLitAux pat fuel t

/-- Number of non-overlapping occurrences of the literal pattern `pat`,
scanning left to right — the match count of a literal global regex such as
`/###/g`. -/
def countLit (pat : List Char) (l : List Char) : ℕ :=
  countLitAux pat l.length l

/-- End position (index just past the match) of the last occurrence of `b`
in `l`, under optional case-insensitivity — where a greedy `.*b` ends. -/
def lastMatchEnd (ci : Bool) (b l : List Char) : Option ℕ :=
  ((List.range (l.length + 1)).filterMap
    (fun i => if isPreCI ci b (l.drop i) then some (i + b.length)
              else none)).getLast?

/-- Fuel-driven scan for `countDotStar`; each step consumes at least one
character, so `l.length` fuel always suffices. -/
def countDotStarAux (ci : Bool) (a b : List Char) : ℕ → List Char → ℕ
  | 0, _ => 0
  | _, [] => 0
  | fuel + 1, c :: t =>
    if a.isEmpty then 0
    else if isPreCI ci a (c :: t) then
      let rest := t.drop (a.length - 1)
      let seg := rest.takeWhile (fun ch => ch != '\n')
      match lastMatchEnd ci b seg with
      | some k => 1 + countDotStarAux ci a b fuel (rest.drop k)
      | none => countDotStarAux ci a b fuel t
    else countDotStarAux ci a b fuel t

/-- Match count of a global regex of shape `/a.*b/` (optionally with the
`i` flag): at each position where the literal `a` matches, the greedy `.*`
extends to the last occurrence of `b` on the same line (`.` does not cross
a line terminator); scanning resumes after each match. -/
def countDotStar (ci : Bool) (a b : List Char) (l : List Char) : ℕ :=
  countDotStarAux ci a b l.length l

/-- Result of one agent file read (`executeTool('Read file', …)`): the tool
returns `{ success: true, content }` or `{ success: false, error }`; a
failed read is modelled with `content = ""`, which the step only ever
touches through guards or optional chaining, both yielding the same
outcome as `undefined`. -/
structure ToolRead where
  success : Bool
  content : String
deriving DecidableEq

/-- Return record of the `validate-completeness` step. -/
structure AnalysisCheckResult where
  complete : Bool
  hasAnalysis : Bool
  hasMVP : Bool
  hasCompetitive : Bool
  hasRisks : Bool
  unknownsCount : ℕ
  risksCount : ℕ
  competitorsCount : ℕ
  reason : String
deriving DecidableEq

/-- The `validate-completeness` step of the analysis phase
(analysis-workflow.ts lines 225–259): presence checks on the four
artifacts, item counts via `/##.*Unknown/g`, `/###/g`,
`/###.*Competitor/gi`, and a fixed reason string for either verdict. -/
def validateAnalysisCompleteness (analysis mvp competitive risks : ToolRead) :
    AnalysisCheckResult :=
  let hasAnalysis :=
    analysis.success && hasSub "Biggest Unknowns".data analysis.content.data
  let hasMVP := mvp.success && hasSub "Core Hypothesis".data mvp.content.data
  let hasCompetitive :=
    competitive.success && decide (competitive.content.length > 300)
  let hasRisks := risks.success && hasSub "Risk".data risks.content.data
  let unknownsCount :=
    countDotStar false "##".data "Unknown".data analysis.content.data
  let risksCount := countLit "###".data risks.content.data
  let competitorsCount :=
    countDotStar true "###".data "Competitor".data competitive.content.data
  let complete :=
    hasAnalysis && hasMVP && hasCompetitive && hasRisks &&
      decide (unknownsCount ≥ 5) && decide (risksCount ≥ 5) &&
      decide (competitorsCount ≥ 3)
  { complete := complete
    hasAnalysis := hasAnalysis
    hasMVP := hasMVP
    hasCompetitive := hasCompetitive
    hasRisks := hasRisks
    unknownsCount := unknownsCount
    risksCount := risksCount
    competitorsCount := competitorsCount
    reason :=
      if complete then "Analysis phase complete"
      else "Incomplete analysis - need more depth" }

/-! ## Concrete analysis artifact set with 4 unknowns, 6 risks,
2 competitors -/

/-- Analysis artifact: header plus three further unknowns — four matches of
`/##.*Unknown/g` in total. -/
def c5Analysis : ToolRead :=
  ⟨true, "## Biggest Unknowns\n## Unknown A\n## Unknown B\n## Unknown C"⟩

/-- MVP artifact containing the required `Core Hypothesis` marker. -/
def c5Mvp : ToolRead := ⟨true, "Core Hypothesis: designers pay for leads"⟩

/-- Competitive artifact with exactly two `### Competitor` sections, padded
past the 300-character threshold. -/
def c5Competitive : ToolRead :=
  ⟨true, "### Competitor One\n### Competitor Two\n" ++
    String.mk (List.replicate 280 'y')⟩

/-- Risk artifact with six `###` sections. -/
def c5Risks : ToolRead :=
  ⟨true, "Risk list\n### R1\n### R2\n### R3\n### R4\n### R5\n### R6"⟩

/-- C5 (counterexample): on the artifact set with 4 unknowns, 6 risks and
2 competitors, the `validate-completeness` step does return
`complete = false`, but its `reason` is the fixed generic string
`Incomplete analysis - need more depth`; it does not cite the insufficient
competitor count (the word `competitor` does not occur in it), contrary to
the claim. -/
theorem c5_counterexample :
    validateAnalysisCompleteness c5Analysis c5Mvp c5Competitive c5Risks =
      { complete := false
        hasAnalysis := true
        hasMVP := true
        hasCompetitive := true
        hasRisks := true
        unknownsCount := 4
        risksCount := 6
        competitorsCount := 2
        reason := "Incomplete analysis - need more depth" } ∧
    hasSub "ompetitor".data "Incomplete analysis - need more depth".data =
      false := by
  decide

/-- C5 (amended): whenever the competitive artifact yields only 2 matches
of `/###.*Competitor/gi`, the `validate-completeness` step returns
`complete = false` with the fixed generic reason
`Incomplete analysis - need more depth`; the failing count is reported only
through the separate `competitorsCount` field, never in `reason`. -/
theorem c5_amended_generic_reason (analysis mvp competitive risks : ToolRead)
    (hcomp : countDotStar true "###".data "Competitor".data
      competitive.content.data = 2) :
    (validateAnalysisCompleteness analysis mvp competitive risks).complete =
      false ∧
    (validateAnalysisCompleteness analysis mvp competitive risks).reason =
      "Incomplete analysis - need more depth" := by
  simp only [validateAnalysisCompleteness, hcomp]
  simp

/-- Witness for `c5_amended_generic_reason` at the concrete artifact set. -/
theorem c5_amended_witness :
    (validateAnalysisCompleteness c5Analysis c5Mvp c5Competitive
      c5Risks).complete = false ∧
    (validateAnalysisCompleteness c5Analysis c5Mvp c5Competitive
      c5Risks).reason = "Incomplete analysis - need more depth" :=
  c5_amended_generic_reason c5Analysis c5Mvp c5Competitive c5Risks (by decide)

/-! ## The GitHub store model
(`src/backend/src/github/client.ts`)

An idea's repository is modelled as a map from branch names to branch
state.  A branch carries its commit list (newest first, as returned by
`listCommits`), the content of its `DECISIONS.log` file, and that file's
blob sha — modelled as a version counter, since the only use the client
makes of the sha is to pass the previously read value back to
`createOrUpdateFileContents`, which GitHub rejects with a conflict when the
file has changed in between.  `listCommits` is called without a `sha`
parameter, so it lists the commits of the repository's *default* branch.

Octokit calls can fail because the store is unreachable; this is modelled
by an availability schedule (`net`), one entry consumed per API call, with
an exhausted schedule meaning "available". -/

/-- One commit, reduced to the only part the client reads: its message. -/
structure Commit where
  message : String
deriving DecidableEq

/-- State of one branch. -/
structure BranchState where
  commits : List Commit
  log : String
  logSha : ℕ
deriving DecidableEq

/-- The versioned store backing one idea repository. -/
structure Store where
  defaultBranch : String
  branches : List (String × BranchState)
deriving DecidableEq

/-- Errors surfaced by the store adapter. -/
inductive GitError where
  | storeUnavailable
  | notFound
  | conflict
deriving DecidableEq

instance {ε α : Type} [DecidableEq ε] [DecidableEq α] :
    DecidableEq (Except ε α) := fun x y =>
  match x, y with
  | .ok a, .ok b => decidable_of_iff (a = b) (by simp)
  | .ok _, .error _ => isFalse (fun h => Except.noConfusion h)
  | .error _, .ok _ => isFalse (fun h => Except.noConfusion h)
  | .error e, .error f => decidable_of_iff (e = f) (by simp)

/-- Store plus availability schedule. -/
structure GitState where
  store : Store
  net : List Bool
deriving DecidableEq

/-- State-and-error monad over the store: JavaScript async calls with
exceptions.  The state survives an error (a thrown exception does not roll
anything back). -/
def GitM (α : Type) := GitState → Except GitError α × GitState

instance : Monad GitM where
  pure a := fun s => (.ok a, s)
  bind x f := fun s =>
    match x s with
    | (.ok a, s1) => f a s1
    | (.error e, s1) => (.error e, s1)

/-- Consume one entry of the availability schedule. -/
def takeNet : GitState → Bool × GitState
  | ⟨st, []⟩ => (true, ⟨st, []⟩)
  | ⟨st, b :: rest⟩ => (b, ⟨st, rest⟩)

/-- One octokit API call: fails with `storeUnavailable` when the schedule
says the store is down, otherwise runs `k` on the store. -/
def apiCall {α : Type} (k : Store → Except GitError (α × Store)) : GitM α :=
  fun s =>
    let av := takeNet s
    if av.1 then
      match k av.2.store with
      | .ok (a, st1) => (.ok a, { av.2 with store := st1 })
      | .error e => (.error e, av.2)
    else (.error .storeUnavailable, av.2)

/-- Branch lookup by name. -/
def lookupBranch (st : Store) (b : String) : Option BranchState :=
  (st.branches.find? (fun p => p.1 == b)).map Prod.snd

/-- Replace the state of branch `b`. -/
def setBranch (st : Store) (b : String) (bs : BranchState) : Store :=
  { st with
    branches := st.branches.map (fun p => if p.1 == b then (p.1, bs) else p) }

/-- `octokit.repos.listCommits({owner, repo, per_page: 100})`: the first
page (100 newest commits) of the repository's default branch — no `sha`
parameter is passed, so stage branches are not consulted. -/
def listCommits : GitM (List Commit) :=
  apiCall fun st =>
    match lookupBranch st st.defaultBranch with
    | some bs => .ok (bs.commits.take 100, st)
    | none => .error .notFound

/-- `octokit.repos.getContent` on `DECISIONS.log` of a branch: content and
blob sha. -/
def getDecisionsLog (branch : String) : GitM (String × ℕ) :=
  apiCall fun st =>
    match lookupBranch st branch with
    | some bs => .ok ((bs.log, bs.logSha), st)
    | none => .error .notFound

/-- `octokit.repos.createOrUpdateFileContents` on `DECISIONS.log` with the
previously read `sha`: GitHub rejects the write with a conflict when the
file's sha changed in between; on success the branch gains one commit with
the given message and the file is replaced. -/
def putDecisionsLog (branch : String) (message newContent : String)
    (expectedSha : ℕ) : GitM Unit :=
  apiCall fun st =>
    match lookupBranch st branch with
    | some bs =>
      if bs.logSha = expectedSha then
        .ok ((), setBranch st branch
          { commits := ⟨message⟩ :: bs.commits
            log := newContent
            logSha := bs.logSha + 1 })
      else .error .conflict
    | none => .error .notFound

/-! ## Decision parsing and the decision commit message -/

/-- The object built by `parseDecisionFromCommit` (client.ts lines
363–380): fields are set only when the corresponding labelled line occurs;
a numeric field whose text parses as `NaN` is identified with an absent
field (nothing in the client distinguishes the two). -/
structure ParsedDecision where
  type : Option String := none
  chosen : Option String := none
  confidence : Option ℚ := none
  revisitProbability : Option ℚ := none
deriving DecidableEq

/-- JavaScript `line.split(':')[1]`, total because every line it is applied
to starts with a label containing `:` (index 1 therefore exists). -/
def jsIndex1 (line : List Char) : List Char :=
  (jsSplitChars ':' line).getD 1 []

/-- One iteration of the parsing loop of `parseDecisionFromCommit`: an
`if / else if` chain on the line's prefix; a later matching line overwrites
an earlier value. -/
def parseDecisionLine (d : ParsedDecision) (line : List Char) :
    ParsedDecision :=
  if isPre "Decision Type:".data line then
    { d with type := some (String.mk (jsTrimChars (jsIndex1 line))) }
  else if isPre "Chosen:".data line then
    { d with chosen := some (String.mk (jsTrimChars (jsIndex1 line))) }
  else if isPre "Confidence:".data line then
    { d with confidence := jsParseFloatChars (jsIndex1 line) }
  else if isPre "Revisit Probability:".data line then
    { d with revisitProbability := jsParseFloatChars (jsIndex1 line) }
  else d

/-- `parseDecisionFromCommit` (client.ts lines 363–380). -/
def parseDecisionFromCommit (message : String) : ParsedDecision :=
  (jsSplitChars '\n' message.data).foldl parseDecisionLine {}

/-- The proposed decision passed to `makeDecision`. -/
structure DecisionInput where
  name : String
  type : String
  alternatives : List String
  chosen : String
  reason : String
  confidence : ℚ
  revisitProbability : ℚ
deriving DecidableEq

/-- JavaScript `array.join(', ')`. -/
def joinComma : List String → String
  | [] => ""
  | [s] => s
  | s :: rest => s ++ ", " ++ joinComma rest

/-- The commit message template of `makeDecision` (client.ts lines
160–169); `ts` is the `new Date().toISOString()` interpolation. -/
def buildCommitMessage (d : DecisionInput) (ts : String) : String :=
  "decision: " ++ d.name ++ "\n\n" ++
  "Decision Type: " ++ d.type ++ "\n" ++
  "Alternatives Considered: " ++ joinComma d.alternatives ++ "\n" ++
  "Chosen: " ++ d.chosen ++ "\n" ++
  "Reason: " ++ d.reason ++ "\n" ++
  "Confidence: " ++ qToDecimalString d.confidence ++ "\n" ++
  "Revisit Probability: " ++ qToDecimalString d.revisitProbability ++ "\n" ++
  "Timestamp: " ++ ts ++ "\n"

/-! ## findDecision and makeDecision -/

/-- The predicate of `commits.find(c => c.commit.message.includes(...))`
in `findDecision`: the commit message *contains* the substring
`decision: <name>`. -/
def decisionMatcher (n : String) (c : Commit) : Bool :=
  hasSub ("decision: " ++ n).data c.message.data

/-- The body of `findDecision` before its `catch`: list the default
branch's recent commits and return the parse of the first (most recent)
commit matching `decisionMatcher`. -/
def findDecisionBody (name : String) : GitM (Option ParsedDecision) := do
  let commits ← listCommits
  match commits.find? (decisionMatcher name) with
  | some c => pure (some (parseDecisionFromCommit c.message))
  | none => pure none

/-- `findDecision` (client.ts lines 202–223): any error — including an
unreachable store — is caught and turned into `null`. -/
def findDecision (name : String) : GitM (Option ParsedDecision) := fun s =>
  match findDecisionBody name s with
  | (.error _, s1) => (.ok none, s1)
  | r => r

/-- The value `makeDecision` resolves with: either the parsed existing
decision or the caller's proposal object. -/
inductive MakeDecisionResult where
  | existing (p : ParsedDecision)
  | proposed (d : DecisionInput)
deriving DecidableEq

/-- The append path of `makeDecision` (client.ts lines 159–196): build the
commit message, read `DECISIONS.log` on the target branch, append the
message block, and write the file back passing the previously read sha. -/
def appendDecision (branch : String) (d : DecisionInput) (ts : String) :
    GitM MakeDecisionResult := do
  let msg := buildCommitMessage d ts
  let cur ← getDecisionsLog branch
  let newContent := cur.1 ++ "\n" ++ msg ++ "\n---\n"
  putDecisionsLog branch msg newContent cur.2
  pure (.proposed d)

/-- `makeDecision` (client.ts lines 132–197): look up an existing decision
by name; if one is found and the *proposed* decision's
`revisitProbability < 0.7`, return the existing decision with no write;
otherwise (none found, or proposal's revisit probability ≥ 0.7) append the
proposal to the target branch's `DECISIONS.log`. -/
def makeDecision (branch : String) (d : DecisionInput) (ts : String) :
    GitM MakeDecisionResult := do
  let existing ← findDecision d.name
  match existing with
  | some e =>
    if d.revisitProbability < mkRat 7 10 then pure (.existing e)
    else appendDecision branch d ts
  | none => appendDecision branch d ts

/-! ## General lemmas about the string primitives -/

theorem strData_append (a b : String) : (a ++ b).data = a.data ++ b.data :=
  rfl

theorem strMk_data (s : String) : String.mk s.data = s := rfl

theorem isPre_self_append (p r : List Char) : isPre p (p ++ r) = true := by
  induction p with
  | nil => rfl
  | cons c t ih => simp [isPre, ih]

theorem isPre_append_eq (p l1 l2 : List Char) :
    isPre p (l1 ++ l2) =
      (isPre (p.take l1.length) l1 && isPre (p.drop l1.length) l2) := by
  induction l1 generalizing p with
  | nil => simp [isPre]
  | cons c t ih =>
    cases p with
    | nil => simp [isPre]
    | cons q ps =>
      simp only [List.cons_append, isPre, List.length_cons,
        List.take_succ_cons, List.drop_succ_cons, List.append_eq, ih,
        Bool.and_assoc]

theorem hasSub_of_isPre (n l : List Char) (h : isPre n l = true) :
    hasSub n l = true := by
  cases l with
  | nil =>
    cases n with
    | nil => rfl
    | cons c t => simp [isPre] at h
  | cons c t => simp [hasSub, h]

theorem jsSplitChars_nil (sep : Char) : jsSplitChars sep [] = [[]] := rfl

theorem jsSplitChars_cons (sep x : Char) (xs : List Char) :
    jsSplitChars sep (x :: xs) =
      if x == sep then [] :: jsSplitChars sep xs
      else
        match jsSplitChars sep xs with
        | [] => [[x]]
        | h :: r => (x :: h) :: r := rfl

theorem jsSplitChars_cons_sep (sep : Char) (l : List Char) :
    jsSplitChars sep (sep :: l) = [] :: jsSplitChars sep l := by
  simp [jsSplitChars]

theorem jsSplitChars_ne_nil (sep : Char) (l : List Char) :
    jsSplitChars sep l ≠ [] := by
  induction l with
  | nil => simp [jsSplitChars]
  | cons c t ih =>
    simp only [jsSplitChars]
    by_cases h : c == sep
    · simp [h]
    · simp only [h, if_neg]
      match hm : jsSplitChars sep t with
      | [] => simp
      | h1 :: r => simp

theorem jsSplitChars_seg (sep : Char) (l1 l2 : List Char) (h : sep ∉ l1) :
    jsSplitChars sep (l1 ++ sep :: l2) = l1 :: jsSplitChars sep l2 := by
  induction l1 with
  | nil => simp [jsSplitChars_cons_sep]
  | cons c t ih =>
    have hc : c ≠ sep := fun e => h (e ▸ List.mem_cons_self c t)
    have ht : sep ∉ t := fun e => h (List.mem_cons_of_mem c e)
    have hcb : (c == sep) = false := by simp [hc]
    rw [List.cons_append, jsSplitChars_cons, ih ht, hcb]
    simp

theorem jsSplitChars_no_sep (sep : Char) (l : List Char) (h : sep ∉ l) :
    jsSplitChars sep l = [l] := by
  induction l with
  | nil => rfl
  | cons c t ih =>
    have hc : c ≠ sep := fun e => h (e ▸ List.mem_cons_self c t)
    have ht : sep ∉ t := fun e => h (List.mem_cons_of_mem c e)
    have hcb : (c == sep) = false := by simp [hc]
    rw [jsSplitChars_cons, ih ht, hcb]
    simp

theorem jsSplitChars_seg2 (sep : Char) (a b l2 : List Char) (ha : sep ∉ a)
    (hb : sep ∉ b) :
    jsSplitChars sep (a ++ (b ++ sep :: l2)) = (a ++ b) :: jsSplitChars sep l2 := by
  rw [← List.append_assoc]
  exact jsSplitChars_seg sep (a ++ b) l2 (by
    intro hm
    rcases List.mem_append.mp hm with h1 | h2
    · exact ha h1
    · exact hb h2)

theorem jsTrimChars_cons_space (l : List Char) :
    jsTrimChars (' ' :: l) = jsTrimChars l := by
  simp [jsTrimChars, List.dropWhile, isWsChar]

theorem jsParseFloatChars_cons_space (l : List Char) :
    jsParseFloatChars (' ' :: l) = jsParseFloatChars l := by
  simp [jsParseFloatChars, List.dropWhile, isWsChar]

theorem find?_append_none {α : Type} (p : α → Bool) (l1 l2 : List α)
    (h : l1.find? p = none) : (l1 ++ l2).find? p = l2.find? p := by
  induction l1 with
  | nil => simp
  | cons c t ih =>
    by_cases hp : p c = true
    · rw [List.find?_cons_of_pos _ hp] at h
      exact (Option.some_ne_none c h).elim
    · rw [List.find?_cons_of_neg _ hp] at h
      rw [List.cons_append, List.find?_cons_of_neg _ hp]
      exact ih h

/-! ## Evaluation lemmas for the store monad -/

theorem GitM_bind_def {α β : Type} (x : GitM α) (f : α → GitM β)
    (s : GitState) :
    (x >>= f) s =
      match x s with
      | (.ok a, s1) => f a s1
      | (.error e, s1) => (.error e, s1) := rfl

theorem GitM_pure_def {α : Type} (a : α) (s : GitState) :
    (pure a : GitM α) s = (.ok a, s) := rfl

theorem setBranch_defaultBranch (st : Store) (b : String) (x : BranchState) :
    (setBranch st b x).defaultBranch = st.defaultBranch := rfl

theorem lookupBranch_setBranch_self (st : Store) (b : String)
    (x : BranchState) (h : (lookupBranch st b).isSome) :
    lookupBranch (setBranch st b x) b = some x := by
  obtain ⟨db, brs⟩ := st
  simp only [lookupBranch, setBranch] at h ⊢
  rw [List.find?_map]
  have hpred :
      ((fun p : String × BranchState => p.1 == b) ∘
        fun p : String × BranchState =>
          if (p.1 == b) = true then (p.1, x) else p) =
      fun p : String × BranchState => p.1 == b := by
    funext p
    by_cases hp : p.1 = b
    · simp [hp]
    · simp [hp]
  rw [hpred]
  cases hfind : brs.find? (fun p => p.1 == b) with
  | none => rw [hfind] at h; simp at h
  | some e =>
    have he : e.1 = b := by simpa using List.find?_some hfind
    try rw [hfind]
    simp [he]

theorem lookupBranch_setBranch_ne (st : Store) (b bq : String)
    (x : BranchState) (h : bq ≠ b) :
    lookupBranch (setBranch st b x) bq = lookupBranch st bq := by
  obtain ⟨db, brs⟩ := st
  simp only [lookupBranch, setBranch]
  rw [List.find?_map]
  have hpred :
      ((fun p : String × BranchState => p.1 == bq) ∘
        fun p : String × BranchState =>
          if (p.1 == b) = true then (p.1, x) else p) =
      fun p : String × BranchState => p.1 == bq := by
    funext p
    by_cases hp : p.1 = b
    · simp [hp]
    · simp [hp]
  rw [hpred]
  cases hfind : brs.find? (fun p => p.1 == bq) with
  | none => simp
  | some e =>
    have he : e.1 = bq := by simpa using List.find?_some hfind
    have hne : ¬ e.1 = b := by rw [he]; exact h
    try rw [hfind]
    simp [hne]

theorem findDecision_run_found (n : String) (st : Store) (dbs : BranchState)
    (c : Commit) (hdb : lookupBranch st st.defaultBranch = some dbs)
    (hfind : (dbs.commits.take 100).find? (decisionMatcher n) = some c) :
    findDecision n ⟨st, []⟩ =
      (.ok (some (parseDecisionFromCommit c.message)), ⟨st, []⟩) := by
  have hlist : listCommits ⟨st, []⟩ = (.ok (dbs.commits.take 100), ⟨st, []⟩) := by
    simp only [listCommits, apiCall, takeNet, hdb]
    simp
  simp only [findDecision, findDecisionBody, GitM_bind_def, hlist, hfind,
    GitM_pure_def]

theorem findDecision_run_none (n : String) (st : Store) (dbs : BranchState)
    (hdb : lookupBranch st st.defaultBranch = some dbs)
    (hfind : (dbs.commits.take 100).find? (decisionMatcher n) = none) :
    findDecision n ⟨st, []⟩ = (.ok none, ⟨st, []⟩) := by
  have hlist : listCommits ⟨st, []⟩ = (.ok (dbs.commits.take 100), ⟨st, []⟩) := by
    simp only [listCommits, apiCall, takeNet, hdb]
    simp
  simp only [findDecision, findDecisionBody, GitM_bind_def, hlist, hfind,
    GitM_pure_def]

theorem findDecision_down (n : String) (st : Store) (net : List Bool) :
    findDecision n ⟨st, false :: net⟩ = (.ok none, ⟨st, net⟩) := rfl

theorem appendDecision_run (branch : String) (d : DecisionInput) (ts : String)
    (st : Store) (bs : BranchState) (hb : lookupBranch st branch = some bs) :
    appendDecision branch d ts ⟨st, []⟩ =
      (.ok (.proposed d),
       ⟨setBranch st branch
          { commits := ⟨buildCommitMessage d ts⟩ :: bs.commits
            log := bs.log ++ "\n" ++ buildCommitMessage d ts ++ "\n---\n"
            logSha := bs.logSha + 1 }, []⟩) := by
  simp only [appendDecision, getDecisionsLog, putDecisionsLog, apiCall,
    takeNet, GitM_bind_def, GitM_pure_def]
  rw [hb]
  simp [hb]

/-! ## Concrete decision-ledger scenarios -/

/-- A fixed ISO timestamp for concrete runs. -/
def tsA : String := "2025-01-01T00:00:00.000Z"

/-- Initial content of `DECISIONS.log`. -/
def initLog : String := "# Decision History\n\n"

/-- The spec scenario's original decision: `use-database`, chosen
PostgreSQL, confidence 0.85, revisit probability 0.05. -/
def pgDecision : DecisionInput :=
  ⟨"use-database", "technology-choice", ["PostgreSQL", "MongoDB"],
   "PostgreSQL", "relational model fits the data", mkRat 85 100, mkRat 5 100⟩

/-- A later proposal for the same name choosing MongoDB, with revisit
probability 0.9. -/
def mongoProposal : DecisionInput :=
  ⟨"use-database", "technology-choice", ["PostgreSQL", "MongoDB"],
   "MongoDB", "documents fit better", mkRat 8 10, mkRat 9 10⟩

/-- The same MongoDB proposal with revisit probability 0.1. -/
def mongoLowProposal : DecisionInput :=
  ⟨"use-database", "technology-choice", ["PostgreSQL", "MongoDB"],
   "MongoDB", "documents fit better", mkRat 8 10, mkRat 1 10⟩

/-- The same MongoDB proposal with revisit probability 0.8. -/
def c2Proposal : DecisionInput :=
  ⟨"use-database", "technology-choice", ["PostgreSQL", "MongoDB"],
   "MongoDB", "documents fit better", mkRat 8 10, mkRat 8 10⟩

/-- Default branch carrying the original `use-database` decision commit. -/
def mainBS : BranchState := ⟨[⟨buildCommitMessage pgDecision tsA⟩], initLog, 1⟩

/-- An empty `requirements` stage branch. -/
def reqBS : BranchState := ⟨[], initLog, 0⟩

/-- Store in which the original PostgreSQL decision is visible on the
default branch. -/
def c1Store : Store := ⟨"main", [("main", mainBS), ("requirements", reqBS)]⟩

/-- C1 (counterexample): the existing `use-database` record on the default
branch parses with revisit probability 0.05 < 0.7 and chosen PostgreSQL,
yet a later call proposing MongoDB with (proposal) revisit probability 0.9
returns the proposal and appends a commit to the requirements branch — the
gate in the code reads the *proposal's* `revisitProbability`, not the
existing record's, so the claimed reuse does not happen. -/
theorem c1_counterexample :
    (parseDecisionFromCommit
      (buildCommitMessage pgDecision tsA)).revisitProbability =
        some (mkRat 5 100) ∧
    (parseDecisionFromCommit (buildCommitMessage pgDecision tsA)).chosen =
      some "PostgreSQL" ∧
    (makeDecision "requirements" mongoProposal tsA ⟨c1Store, []⟩).1 =
      .ok (.proposed mongoProposal) ∧
    (lookupBranch
      (makeDecision "requirements" mongoProposal tsA ⟨c1Store, []⟩).2.store
      "requirements").map BranchState.commits =
        some [⟨buildCommitMessage mongoProposal tsA⟩] := by
  decide

/-- C1 (amended): the reuse gate compares the *proposed* decision's
revisit probability with 0.7.  For every store whose default branch's
recent commits contain a record for the proposed name, if the proposal's
`revisitProbability < 0.7` then `makeDecision` returns the existing parsed
record and leaves the store untouched (zero commits), even when the
proposed chosen alternative differs. -/
theorem c1_amended_reuse_gated_by_proposal
    (st : Store) (dbs : BranchState) (branch : String) (d : DecisionInput)
    (ts : String) (c : Commit)
    (hdb : lookupBranch st st.defaultBranch = some dbs)
    (hfind : (dbs.commits.take 100).find? (decisionMatcher d.name) = some c)
    (hrp : d.revisitProbability < mkRat 7 10) :
    makeDecision branch d ts ⟨st, []⟩ =
      (.ok (.existing (parseDecisionFromCommit c.message)), ⟨st, []⟩) := by
  simp only [makeDecision, GitM_bind_def,
    findDecision_run_found d.name st dbs c hdb hfind]
  simp [hrp, GitM_pure_def]

/-- Witness for `c1_amended_reuse_gated_by_proposal`: proposing MongoDB
with revisit probability 0.1 against the recorded PostgreSQL decision
returns the original parsed PostgreSQL record and adds no commit. -/
theorem c1_amended_witness :
    makeDecision "requirements" mongoLowProposal tsA ⟨c1Store, []⟩ =
      (.ok (.existing (parseDecisionFromCommit
        (buildCommitMessage pgDecision tsA))), ⟨c1Store, []⟩) :=
  c1_amended_reuse_gated_by_proposal c1Store mainBS "requirements"
    mongoLowProposal tsA ⟨buildCommitMessage pgDecision tsA⟩ (by decide)
    (by decide) (by decide)

/-- The existing `use-database` record of the C2 scenario: chosen
PostgreSQL with revisit probability 0.9 ≥ 0.7. -/
def hiRevisitDecision : DecisionInput :=
  ⟨"use-database", "technology-choice", ["PostgreSQL", "MongoDB"],
   "PostgreSQL", "commit now, revisit at scale", mkRat 6 10, mkRat 9 10⟩

/-- Store whose default branch carries the high-revisit `use-database`
record. -/
def c2Store : Store :=
  ⟨"main",
   [("main", ⟨[⟨buildCommitMessage hiRevisitDecision tsA⟩], initLog, 1⟩),
    ("requirements", reqBS)]⟩

/-- C2 (counterexample): the existing `use-database` record parses with
revisit probability 0.9 ≥ 0.7 — the claim's own hypothesis — and a later
proposal (revisit probability 0.8) is made with no blocking-condition
signal, since none exists anywhere in `makeDecision`'s interface.  The
claim says that absent such a signal the call behaves like the < 0.7 case
and appends nothing; the code appends a second commit for the name. -/
theorem c2_counterexample :
    (parseDecisionFromCommit
      (buildCommitMessage hiRevisitDecision tsA)).revisitProbability =
        some (mkRat 9 10) ∧
    (makeDecision "requirements" c2Proposal tsA ⟨c2Store, []⟩).1 =
      .ok (.proposed c2Proposal) ∧
    (lookupBranch
      (makeDecision "requirements" c2Proposal tsA ⟨c2Store, []⟩).2.store
      "requirements").map BranchState.commits =
        some [⟨buildCommitMessage c2Proposal tsA⟩] := by
  decide

/-- C2 (amended): `makeDecision` takes no blocking-condition input at all;
whenever an existing record is found and the proposal's
`revisitProbability ≥ 0.7`, it unconditionally appends the proposal as a
new commit (not marked as a reversal) and returns it. -/
theorem c2_amended_high_revisit_always_appends
    (st : Store) (dbs bs : BranchState) (branch : String) (d : DecisionInput)
    (ts : String) (c : Commit)
    (hdb : lookupBranch st st.defaultBranch = some dbs)
    (hfind : (dbs.commits.take 100).find? (decisionMatcher d.name) = some c)
    (hrp : mkRat 7 10 ≤ d.revisitProbability)
    (hb : lookupBranch st branch = some bs) :
    makeDecision branch d ts ⟨st, []⟩ =
      (.ok (.proposed d),
       ⟨setBranch st branch
          { commits := ⟨buildCommitMessage d ts⟩ :: bs.commits
            log := bs.log ++ "\n" ++ buildCommitMessage d ts ++ "\n---\n"
            logSha := bs.logSha + 1 }, []⟩) := by
  have hnlt : ¬ d.revisitProbability < mkRat 7 10 := not_lt.mpr hrp
  simp only [makeDecision, GitM_bind_def,
    findDecision_run_found d.name st dbs c hdb hfind]
  rw [if_neg hnlt]
  exact appendDecision_run branch d ts st bs hb

/-- Witness for `c2_amended_high_revisit_always_appends` at the store
whose existing record itself carries revisit probability 0.9 ≥ 0.7. -/
theorem c2_amended_witness :
    makeDecision "requirements" c2Proposal tsA ⟨c2Store, []⟩ =
      (.ok (.proposed c2Proposal),
       ⟨setBranch c2Store "requirements"
          { commits := ⟨buildCommitMessage c2Proposal tsA⟩ :: reqBS.commits
            log := reqBS.log ++ "\n" ++ buildCommitMessage c2Proposal tsA ++
              "\n---\n"
            logSha := reqBS.logSha + 1 }, []⟩) :=
  c2_amended_high_revisit_always_appends c2Store
    ⟨[⟨buildCommitMessage hiRevisitDecision tsA⟩], initLog, 1⟩ reqBS
    "requirements" c2Proposal tsA
    ⟨buildCommitMessage hiRevisitDecision tsA⟩ (by decide) (by decide)
    (by decide) (by decide)

/-! ## C4: what findDecision actually scans -/

/-- Store in which the only `use-database` decision commit sits on the
`analysis` stage branch, not on the default branch. -/
def c4Store : Store :=
  ⟨"main",
   [("main", ⟨[⟨"init: create DECISIONS.log"⟩], initLog, 0⟩),
    ("analysis", ⟨[⟨buildCommitMessage pgDecision tsA⟩], initLog, 1⟩)]⟩

/-- C4 (counterexample): a decision record exists on the `analysis` stage
branch, yet `findDecision` returns `null` — it lists only the default
branch's commits, so it does not scan the decision logs of all stage
branches as claimed. -/
theorem c4_counterexample :
    ((lookupBranch c4Store "analysis").map
      (fun bs => bs.commits.any (decisionMatcher "use-database")) =
        some true) ∧
    (findDecision "use-database" ⟨c4Store, []⟩).1 = .ok none := by
  decide

/-- C4 (amended): `findDecision` consults only the first 100 commits of
the repository's *default* branch.  If none of them contains
`decision: <name>` it returns `null` — regardless of any records on stage
branches — and otherwise it returns the parse of the most recent (first)
matching commit, with no supersession filtering. -/
theorem c4_amended_default_branch_scan :
    (∀ (n : String) (st : Store) (dbs : BranchState),
      lookupBranch st st.defaultBranch = some dbs →
      (∀ cm ∈ dbs.commits.take 100, decisionMatcher n cm = false) →
      (findDecision n ⟨st, []⟩).1 = .ok none) ∧
    (∀ (n : String) (st : Store) (dbs : BranchState) (c : Commit)
      (pre post : List Commit),
      lookupBranch st st.defaultBranch = some dbs →
      dbs.commits = pre ++ c :: post →
      pre.length ≤ 99 →
      (∀ cm ∈ pre, decisionMatcher n cm = false) →
      decisionMatcher n c = true →
      (findDecision n ⟨st, []⟩).1 =
        .ok (some (parseDecisionFromCommit c.message))) := by
  constructor
  · intro n st dbs hdb hnone
    have hfind : (dbs.commits.take 100).find? (decisionMatcher n) = none :=
      List.find?_eq_none.mpr (fun cm hm => by simp [hnone cm hm])
    rw [findDecision_run_none n st dbs hdb hfind]
  · intro n st dbs c pre post hdb hc hlen hnone hmatch
    have htake : dbs.commits.take 100 =
        pre ++ c :: post.take (99 - pre.length) := by
      rw [hc, List.take_append_eq_append_take,
        List.take_of_length_le (le_trans hlen (by omega)),
        show 100 - pre.length = (99 - pre.length) + 1 by omega,
        List.take_succ_cons]
    have hfind : (dbs.commits.take 100).find? (decisionMatcher n) = some c := by
      rw [htake, find?_append_none (decisionMatcher n) pre _
        (List.find?_eq_none.mpr (fun cm hm => by simp [hnone cm hm])),
        List.find?_cons_of_pos _ hmatch]
    rw [findDecision_run_found n st dbs c hdb hfind]

/-- Witness for `c4_amended_default_branch_scan`: on the concrete store of
the C1 scenario, a query for an unrecorded name returns `null`, and the
query for `use-database` returns the parsed PostgreSQL record. -/
theorem c4_amended_witness :
    (findDecision "no-such-decision" ⟨c1Store, []⟩).1 = .ok none ∧
    (findDecision "use-database" ⟨c1Store, []⟩).1 =
      .ok (some (parseDecisionFromCommit
        (buildCommitMessage pgDecision tsA))) :=
  ⟨c4_amended_default_branch_scan.1 "no-such-decision" c1Store mainBS
    (by decide) (by decide),
   c4_amended_default_branch_scan.2 "use-database" c1Store mainBS
    ⟨buildCommitMessage pgDecision tsA⟩ [] [] (by decide) (by decide)
    (by decide) (by decide) (by decide)⟩

/-! ## C6: behaviour when the store is unreachable -/

/-- C6 (counterexample): with the store up, the call returns the existing
PostgreSQL record and appends nothing; with the store unreachable during
the history lookup (schedule `[false]`), the very same call succeeds with
the proposal and appends a commit — the outage is not surfaced, and the
unreachable store is treated exactly like "no existing decision". -/
theorem c6_counterexample :
    (makeDecision "requirements" mongoLowProposal tsA ⟨c1Store, []⟩).1 =
      .ok (.existing (parseDecisionFromCommit
        (buildCommitMessage pgDecision tsA))) ∧
    (makeDecision "requirements" mongoLowProposal tsA ⟨c1Store, [false]⟩).1 =
      .ok (.proposed mongoLowProposal) ∧
    (lookupBranch (makeDecision "requirements" mongoLowProposal tsA
        ⟨c1Store, [false]⟩).2.store "requirements").map
      BranchState.commits =
        some [⟨buildCommitMessage mongoLowProposal tsA⟩] := by
  decide

/-- C6 (amended): an unreachable store during the commit-history lookup is
swallowed by `findDecision`'s `catch` (which returns `null`), so
`makeDecision` proceeds to append the proposal as if no decision existed —
even when one exists and the proposal's revisit probability is below 0.7;
only an outage hit during the `DECISIONS.log` read/write of the append
path itself propagates to the caller as a store error. -/
theorem c6_amended_outage_swallowed :
    (∀ (st : Store) (branch : String) (d : DecisionInput) (ts : String)
      (bs : BranchState) (e : ParsedDecision),
      lookupBranch st branch = some bs →
      (findDecision d.name ⟨st, []⟩).1 = .ok (some e) →
      d.revisitProbability < mkRat 7 10 →
      makeDecision branch d ts ⟨st, [false]⟩ =
        (.ok (.proposed d),
         ⟨setBranch st branch
            { commits := ⟨buildCommitMessage d ts⟩ :: bs.commits
              log := bs.log ++ "\n" ++ buildCommitMessage d ts ++ "\n---\n"
              logSha := bs.logSha + 1 }, []⟩)) ∧
    (∀ (st : Store) (branch : String) (d : DecisionInput) (ts : String),
      (makeDecision branch d ts ⟨st, [false, false]⟩).1 =
        .error .storeUnavailable) := by
  constructor
  · intro st branch d ts bs e hb _ _
    simp only [makeDecision, GitM_bind_def, findDecision_down]
    exact appendDecision_run branch d ts st bs hb
  · intro st branch d ts
    rfl

/-- Witness for `c6_amended_outage_swallowed` at the concrete store. -/
theorem c6_amended_witness :
    makeDecision "requirements" mongoLowProposal tsA ⟨c1Store, [false]⟩ =
      (.ok (.proposed mongoLowProposal),
       ⟨setBranch c1Store "requirements"
          { commits :=
              ⟨buildCommitMessage mongoLowProposal tsA⟩ :: reqBS.commits
            log := reqBS.log ++ "\n" ++
              buildCommitMessage mongoLowProposal tsA ++ "\n---\n"
            logSha := reqBS.logSha + 1 }, []⟩) ∧
    (makeDecision "requirements" mongoLowProposal tsA
      ⟨c1Store, [false, false]⟩).1 = .error .storeUnavailable :=
  ⟨c6_amended_outage_swallowed.1 c1Store "requirements" mongoLowProposal tsA
    reqBS (parseDecisionFromCommit (buildCommitMessage pgDecision tsA))
    (by decide) (by decide) (by decide),
   c6_amended_outage_swallowed.2 c1Store "requirements" mongoLowProposal tsA⟩

/-! ## C9: two recordDecision calls for the same name -/

/-- The branch state after one decision append: a new commit carrying the
message, the message block appended to `DECISIONS.log`, and a fresh sha. -/
def appendedBS (bs : BranchState) (msg : String) : BranchState :=
  ⟨⟨msg⟩ :: bs.commits, bs.log ++ "\n" ++ msg ++ "\n---\n", bs.logSha + 1⟩

/-- Store with no decision commit anywhere: a fresh idea repository. -/
def c9Store : Store :=
  ⟨"main",
   [("main", ⟨[⟨"init: initial commit"⟩], initLog, 0⟩),
    ("requirements", reqBS)]⟩

/-- C9 (counterexample): two successive `makeDecision` calls for the name
`use-database` (one proposing PostgreSQL, one proposing MongoDB) both
observe "no existing decision" and both append — afterwards the
requirements branch carries two decision commits for the same name, so it
is false that at most one of the two calls creates a new decision commit. -/
theorem c9_counterexample :
    (makeDecision "requirements" pgDecision tsA ⟨c9Store, []⟩).1 =
      .ok (.proposed pgDecision) ∧
    (makeDecision "requirements" mongoLowProposal tsA
      (makeDecision "requirements" pgDecision tsA ⟨c9Store, []⟩).2).1 =
        .ok (.proposed mongoLowProposal) ∧
    (lookupBranch (makeDecision "requirements" mongoLowProposal tsA
        (makeDecision "requirements" pgDecision tsA ⟨c9Store, []⟩).2).2.store
      "requirements").map
        (fun bs => bs.commits.countP (decisionMatcher "use-database")) =
      some 2 := by
  decide

/-- C9 (amended): deduplication of `recordDecision` is not serialized per
(idea, name): because `findDecision` consults only the default branch's
commits while decision commits land on the target stage branch, two calls
for the same name — even run strictly one after the other — both observe
"no existing decision" and both append.  The only write-write protection
is the file sha passed to `createOrUpdateFileContents` (a conflict for a
simultaneous second writer on the same branch and sha), not a read-append
serialization per (idea, name). -/
theorem c9_amended_double_append
    (st : Store) (dbs bs : BranchState) (branch n : String)
    (d1 d2 : DecisionInput) (ts1 ts2 : String)
    (hdb : lookupBranch st st.defaultBranch = some dbs)
    (hnone : ∀ cm ∈ dbs.commits.take 100, decisionMatcher n cm = false)
    (hb : lookupBranch st branch = some bs)
    (hbd : branch ≠ st.defaultBranch)
    (h1 : d1.name = n) (h2 : d2.name = n) :
    (makeDecision branch d1 ts1 ⟨st, []⟩).1 = .ok (.proposed d1) ∧
    (makeDecision branch d2 ts2
      (makeDecision branch d1 ts1 ⟨st, []⟩).2).1 = .ok (.proposed d2) ∧
    (lookupBranch (makeDecision branch d2 ts2
        (makeDecision branch d1 ts1 ⟨st, []⟩).2).2.store branch).map
      BranchState.commits =
      some (⟨buildCommitMessage d2 ts2⟩ :: ⟨buildCommitMessage d1 ts1⟩ ::
        bs.commits) := by
  have hfind1 : (dbs.commits.take 100).find? (decisionMatcher d1.name) =
      none := by
    rw [h1]
    exact List.find?_eq_none.mpr (fun cm hm => by simp [hnone cm hm])
  have hfind2 : (dbs.commits.take 100).find? (decisionMatcher d2.name) =
      none := by
    rw [h2]
    exact List.find?_eq_none.mpr (fun cm hm => by simp [hnone cm hm])
  have hmk1 : makeDecision branch d1 ts1 ⟨st, []⟩ =
      (.ok (.proposed d1),
       ⟨setBranch st branch (appendedBS bs (buildCommitMessage d1 ts1)),
        []⟩) := by
    simp only [makeDecision, GitM_bind_def,
      findDecision_run_none d1.name st dbs hdb hfind1]
    exact appendDecision_run branch d1 ts1 st bs hb
  have h2nd : (makeDecision branch d1 ts1 ⟨st, []⟩).2 =
      ⟨setBranch st branch (appendedBS bs (buildCommitMessage d1 ts1)),
       []⟩ := by
    rw [hmk1]
  have hdb1 : lookupBranch
      (setBranch st branch (appendedBS bs (buildCommitMessage d1 ts1)))
      (setBranch st branch
        (appendedBS bs (buildCommitMessage d1 ts1))).defaultBranch =
      some dbs := by
    rw [setBranch_defaultBranch,
      lookupBranch_setBranch_ne st branch st.defaultBranch _ (Ne.symm hbd)]
    exact hdb
  have hb1 : lookupBranch
      (setBranch st branch (appendedBS bs (buildCommitMessage d1 ts1)))
      branch = some (appendedBS bs (buildCommitMessage d1 ts1)) :=
    lookupBranch_setBranch_self st branch _ (by rw [hb]; rfl)
  have hmk2 : makeDecision branch d2 ts2
      ⟨setBranch st branch (appendedBS bs (buildCommitMessage d1 ts1)),
       []⟩ =
      (.ok (.proposed d2),
       ⟨setBranch
          (setBranch st branch (appendedBS bs (buildCommitMessage d1 ts1)))
          branch
          (appendedBS (appendedBS bs (buildCommitMessage d1 ts1))
            (buildCommitMessage d2 ts2)), []⟩) := by
    simp only [makeDecision, GitM_bind_def,
      findDecision_run_none d2.name _ dbs hdb1 hfind2]
    exact appendDecision_run branch d2 ts2 _ _ hb1
  have h2nd2 : (makeDecision branch d2 ts2
      ⟨setBranch st branch (appendedBS bs (buildCommitMessage d1 ts1)),
       []⟩).2.store =
      setBranch
        (setBranch st branch (appendedBS bs (buildCommitMessage d1 ts1)))
        branch
        (appendedBS (appendedBS bs (buildCommitMessage d1 ts1))
          (buildCommitMessage d2 ts2)) := by
    rw [hmk2]
  refine ⟨by rw [hmk1], by rw [h2nd, hmk2], ?_⟩
  rw [h2nd, h2nd2,
    lookupBranch_setBranch_self _ branch _ (by rw [hb1]; rfl)]
  rfl

/-- Witness for `c9_amended_double_append` at the fresh concrete store. -/
theorem c9_amended_witness :
    (makeDecision "requirements" pgDecision tsA ⟨c9Store, []⟩).1 =
      .ok (.proposed pgDecision) ∧
    (makeDecision "requirements" mongoLowProposal tsA
      (makeDecision "requirements" pgDecision tsA ⟨c9Store, []⟩).2).1 =
        .ok (.proposed mongoLowProposal) ∧
    (lookupBranch (makeDecision "requirements" mongoLowProposal tsA
        (makeDecision "requirements" pgDecision tsA ⟨c9Store, []⟩).2).2.store
      "requirements").map BranchState.commits =
      some (⟨buildCommitMessage mongoLowProposal tsA⟩ ::
        ⟨buildCommitMessage pgDecision tsA⟩ :: reqBS.commits) :=
  c9_amended_double_append c9Store ⟨[⟨"init: initial commit"⟩], initLog, 0⟩
    reqBS "requirements" "use-database" pgDecision mongoLowProposal tsA tsA
    (by decide) (by decide) (by decide) (by decide) (by decide) (by decide)

/-! ## The commit message as a list of labelled lines -/

theorem data_nl : "\n".data = ['\n'] := rfl

theorem data_nlnl : "\n\n".data = ['\n', '\n'] := rfl

/-- The characters of the commit message after `decision: <name>`: a blank
line and then one labelled line per field, each ending in a newline. -/
def msgTail (d : DecisionInput) (ts : String) : List Char :=
  '\n' :: '\n' ::
  ("Decision Type: ".data ++ d.type.data ++ '\n' ::
  ("Alternatives Considered: ".data ++ (joinComma d.alternatives).data ++
    '\n' ::
  ("Chosen: ".data ++ d.chosen.data ++ '\n' ::
  ("Reason: ".data ++ d.reason.data ++ '\n' ::
  ("Confidence: ".data ++ (qToDecimalString d.confidence).data ++ '\n' ::
  ("Revisit Probability: ".data ++
    (qToDecimalString d.revisitProbability).data ++ '\n' ::
  ("Timestamp: ".data ++ ts.data ++ ['\n'])))))))

theorem buildCommitMessage_data (d : DecisionInput) (ts : String) :
    (buildCommitMessage d ts).data =
      "decision: ".data ++ (d.name.data ++ msgTail d ts) := by
  simp [buildCommitMessage, msgTail, strData_append, data_nl, data_nlnl]

/-! ## C10: substring matching in findDecision -/

/-- A decision whose name `use-db-pool` extends `use-db`. -/
def poolDecision : DecisionInput :=
  ⟨"use-db-pool", "technology-choice", ["pgbouncer", "no pooling"],
   "pgbouncer", "connection limits", mkRat 9 10, mkRat 2 10⟩

/-- Store whose default branch's only decision commit is the
`use-db-pool` record. -/
def c10Store : Store :=
  ⟨"main", [("main", ⟨[⟨buildCommitMessage poolDecision tsA⟩], initLog, 1⟩)]⟩

/-- C10: `findDecision` matches by substring containment, not exact name.
For every extension `extn ≠ ""` and decision named `"use-db" ++ extn`
whose commit is the default branch's (only, hence first) entry, the query
for the shorter name `use-db` returns that longer-named decision's parsed
record even though no decision named `use-db` exists. -/
theorem c10_prefix_query_returns_extended
    (extn : String) (d : DecisionInput) (ts : String) (st : Store)
    (dbs : BranchState)
    (hext : extn ≠ "")
    (hname : d.name = "use-db" ++ extn)
    (hdb : lookupBranch st st.defaultBranch = some dbs)
    (hcommits : dbs.commits = [⟨buildCommitMessage d ts⟩]) :
    d.name ≠ "use-db" ∧
    (findDecision "use-db" ⟨st, []⟩).1 =
      .ok (some (parseDecisionFromCommit (buildCommitMessage d ts))) := by
  constructor
  · rw [hname]
    intro h
    apply hext
    have hdata : "use-db".data ++ extn.data = "use-db".data ++ [] := by
      have h2 := congrArg String.data h
      rw [strData_append] at h2
      simpa using h2
    have hnil : extn.data = [] := List.append_cancel_left hdata
    cases extn with
    | mk l => simp only at hnil; rw [hnil]
  · have hmatch : decisionMatcher "use-db" ⟨buildCommitMessage d ts⟩ =
        true := by
      simp only [decisionMatcher]
      apply hasSub_of_isPre
      have hd : (buildCommitMessage d ts).data =
          ("decision: " ++ "use-db").data ++ (extn.data ++ msgTail d ts) := by
        rw [buildCommitMessage_data, hname, strData_append, strData_append]
        simp [List.append_assoc]
      rw [hd]
      exact isPre_self_append _ _
    have hfind : (dbs.commits.take 100).find? (decisionMatcher "use-db") =
        some ⟨buildCommitMessage d ts⟩ := by
      rw [hcommits]
      simp only [List.take_succ_cons, List.take_nil]
      exact List.find?_cons_of_pos _ hmatch
    rw [findDecision_run_found "use-db" st dbs ⟨buildCommitMessage d ts⟩
      hdb hfind]

/-- Witness for `c10_prefix_query_returns_extended`: querying `use-db`
on the store holding only the `use-db-pool` record returns that record. -/
theorem c10_witness :
    poolDecision.name ≠ "use-db" ∧
    (findDecision "use-db" ⟨c10Store, []⟩).1 =
      .ok (some (parseDecisionFromCommit
        (buildCommitMessage poolDecision tsA))) :=
  c10_prefix_query_returns_extended "-pool" poolDecision tsA c10Store
    ⟨[⟨buildCommitMessage poolDecision tsA⟩], initLog, 1⟩ (by decide)
    (by decide) (by decide) (by decide)

/-! ## C7: the decision commit message and round-trip parsing -/

/-- A decision whose chosen alternative contains colons (a connection
string). -/
def c7Bad : DecisionInput :=
  ⟨"use-database", "technology-choice",
   ["postgres://db:5432", "mysql://db:3306"], "postgres://db:5432",
   "standard port", mkRat 85 100, mkRat 5 100⟩

/-- C7 (counterexample): `parseDecisionFromCommit` recovers the `Chosen`
field with `line.split(':')[1]`, which truncates any value containing a
colon: the chosen alternative `postgres://db:5432` written by
`makeDecision`'s commit message comes back as `postgres`, so the claimed
universal round trip fails. -/
theorem c7_counterexample :
    (parseDecisionFromCommit (buildCommitMessage c7Bad tsA)).chosen =
      some "postgres" ∧
    c7Bad.chosen = "postgres://db:5432" ∧
    some c7Bad.chosen ≠ some "postgres" := by
  decide

theorem isPre_nil_left (l : List Char) : isPre [] l = true := rfl

/-- `parseDecisionFromCommit` ignores the `decision: <name>` subject
line. -/
theorem pdl_name (p : ParsedDecision) (x : List Char) :
    parseDecisionLine p ("decision: ".data ++ x) = p := by
  have h1 : isPre ("Decision Type:".data.take "decision: ".data.length)
      "decision: ".data = false := by decide
  have h2 : isPre ("Chosen:".data.take "decision: ".data.length)
      "decision: ".data = false := by decide
  have h3 : isPre ("Confidence:".data.take "decision: ".data.length)
      "decision: ".data = false := by decide
  have h4 : isPre ("Revisit Probability:".data.take "decision: ".data.length)
      "decision: ".data = false := by decide
  simp only [parseDecisionLine, isPre_append_eq, h1, h2, h3, h4,
    Bool.false_and, Bool.false_eq_true, if_false]

/-- Blank lines assign nothing. -/
theorem pdl_empty (p : ParsedDecision) : parseDecisionLine p [] = p := by
  have h1 : isPre "Decision Type:".data [] = false := by decide
  have h2 : isPre "Chosen:".data [] = false := by decide
  have h3 : isPre "Confidence:".data [] = false := by decide
  have h4 : isPre "Revisit Probability:".data [] = false := by decide
  simp only [parseDecisionLine, h1, h2, h3, h4, Bool.false_eq_true, if_false]

/-- The `Alternatives Considered` line is never parsed back. -/
theorem pdl_alts (p : ParsedDecision) (x : List Char) :
    parseDecisionLine p ("Alternatives Considered: ".data ++ x) = p := by
  have h1 : isPre
      ("Decision Type:".data.take "Alternatives Considered: ".data.length)
      "Alternatives Considered: ".data = false := by decide
  have h2 : isPre ("Chosen:".data.take "Alternatives Considered: ".data.length)
      "Alternatives Considered: ".data = false := by decide
  have h3 : isPre
      ("Confidence:".data.take "Alternatives Considered: ".data.length)
      "Alternatives Considered: ".data = false := by decide
  have h4 : isPre
      ("Revisit Probability:".data.take
        "Alternatives Considered: ".data.length)
      "Alternatives Considered: ".data = false := by decide
  simp only [parseDecisionLine, isPre_append_eq, h1, h2, h3, h4,
    Bool.false_and, Bool.false_eq_true, if_false]

/-- The `Reason` line is never parsed back. -/
theorem pdl_reason (p : ParsedDecision) (x : List Char) :
    parseDecisionLine p ("Reason: ".data ++ x) = p := by
  have h1 : isPre ("Decision Type:".data.take "Reason: ".data.length)
      "Reason: ".data = false := by decide
  have h2 : isPre ("Chosen:".data.take "Reason: ".data.length)
      "Reason: ".data = false := by decide
  have h3 : isPre ("Confidence:".data.take "Reason: ".data.length)
      "Reason: ".data = false := by decide
  have h4 : isPre ("Revisit Probability:".data.take "Reason: ".data.length)
      "Reason: ".data = false := by decide
  simp only [parseDecisionLine, isPre_append_eq, h1, h2, h3, h4,
    Bool.false_and, Bool.false_eq_true, if_false]

/-- The `Timestamp` line is never parsed back. -/
theorem pdl_ts (p : ParsedDecision) (x : List Char) :
    parseDecisionLine p ("Timestamp: ".data ++ x) = p := by
  have h1 : isPre ("Decision Type:".data.take "Timestamp: ".data.length)
      "Timestamp: ".data = false := by decide
  have h2 : isPre ("Chosen:".data.take "Timestamp: ".data.length)
      "Timestamp: ".data = false := by decide
  have h3 : isPre ("Confidence:".data.take "Timestamp: ".data.length)
      "Timestamp: ".data = false := by decide
  have h4 : isPre ("Revisit Probability:".data.take "Timestamp: ".data.length)
      "Timestamp: ".data = false := by decide
  simp only [parseDecisionLine, isPre_append_eq, h1, h2, h3, h4,
    Bool.false_and, Bool.false_eq_true, if_false]

/-- The `Decision Type` line assigns `type` from the trimmed text after
the first colon, which is the full field when it contains no colon and no
surrounding whitespace. -/
theorem pdl_type (p : ParsedDecision) (x : List Char) (hx : ':' ∉ x)
    (hxt : jsTrimChars x = x) :
    parseDecisionLine p ("Decision Type: ".data ++ x) =
      { p with type := some (String.mk x) } := by
  have ht : isPre ("Decision Type:".data.take "Decision Type: ".data.length)
      "Decision Type: ".data = true := by decide
  have htd : "Decision Type:".data.drop "Decision Type: ".data.length =
      ([] : List Char) := by decide
  have hxcons : (':' : Char) ∉ (' ' :: x) := by
    intro hm
    rcases List.mem_cons.mp hm with h | h
    · exact absurd h (by decide)
    · exact hx h
  have he : "Decision Type: ".data ++ x =
      "Decision Type".data ++ (':' :: (' ' :: x)) := by
    have e0 : "Decision Type: ".data = "Decision Type".data ++ [':', ' '] :=
      by decide
    rw [e0]
    simp
  have hsplit : jsSplitChars ':' ("Decision Type: ".data ++ x) =
      ["Decision Type".data, ' ' :: x] := by
    rw [he, jsSplitChars_seg ':' _ _ (by decide),
      jsSplitChars_no_sep ':' _ hxcons]
  simp only [parseDecisionLine, isPre_append_eq, ht, htd, isPre_nil_left,
    Bool.and_self, jsIndex1, hsplit]
  simp [jsTrimChars_cons_space, hxt]

/-- The `Chosen` line assigns `chosen` likewise. -/
theorem pdl_chosen (p : ParsedDecision) (x : List Char) (hx : ':' ∉ x)
    (hxt : jsTrimChars x = x) :
    parseDecisionLine p ("Chosen: ".data ++ x) =
      { p with chosen := some (String.mk x) } := by
  have h1 : isPre ("Decision Type:".data.take "Chosen: ".data.length)
      "Chosen: ".data = false := by decide
  have ht : isPre ("Chosen:".data.take "Chosen: ".data.length)
      "Chosen: ".data = true := by decide
  have htd : "Chosen:".data.take "Chosen: ".data.length = "Chosen:".data :=
    by decide
  have htd2 : "Chosen:".data.drop "Chosen: ".data.length = ([] : List Char) :=
    by decide
  have hxcons : (':' : Char) ∉ (' ' :: x) := by
    intro hm
    rcases List.mem_cons.mp hm with h | h
    · exact absurd h (by decide)
    · exact hx h
  have he : "Chosen: ".data ++ x = "Chosen".data ++ (':' :: (' ' :: x)) := by
    have e0 : "Chosen: ".data = "Chosen".data ++ [':', ' '] := by decide
    rw [e0]
    simp
  have hsplit : jsSplitChars ':' ("Chosen: ".data ++ x) =
      ["Chosen".data, ' ' :: x] := by
    rw [he, jsSplitChars_seg ':' _ _ (by decide),
      jsSplitChars_no_sep ':' _ hxcons]
  simp only [parseDecisionLine, isPre_append_eq, h1, ht, htd2, isPre_nil_left,
    Bool.false_and, Bool.and_self, Bool.false_eq_true, if_false, jsIndex1,
    hsplit]
  simp [jsTrimChars_cons_space, hxt]

/-- The `Confidence` line assigns `confidence` via `parseFloat` of the
text after the first colon. -/
theorem pdl_conf (p : ParsedDecision) (x : List Char) (hx : ':' ∉ x) :
    parseDecisionLine p ("Confidence: ".data ++ x) =
      { p with confidence := jsParseFloatChars x } := by
  have h1 : isPre ("Decision Type:".data.take "Confidence: ".data.length)
      "Confidence: ".data = false := by decide
  have h2 : isPre ("Chosen:".data.take "Confidence: ".data.length)
      "Confidence: ".data = false := by decide
  have ht : isPre ("Confidence:".data.take "Confidence: ".data.length)
      "Confidence: ".data = true := by decide
  have htd : "Confidence:".data.drop "Confidence: ".data.length =
      ([] : List Char) := by decide
  have hxcons : (':' : Char) ∉ (' ' :: x) := by
    intro hm
    rcases List.mem_cons.mp hm with h | h
    · exact absurd h (by decide)
    · exact hx h
  have he : "Confidence: ".data ++ x =
      "Confidence".data ++ (':' :: (' ' :: x)) := by
    have e0 : "Confidence: ".data = "Confidence".data ++ [':', ' '] :=
      by decide
    rw [e0]
    simp
  have hsplit : jsSplitChars ':' ("Confidence: ".data ++ x) =
      ["Confidence".data, ' ' :: x] := by
    rw [he, jsSplitChars_seg ':' _ _ (by decide),
      jsSplitChars_no_sep ':' _ hxcons]
  simp only [parseDecisionLine, isPre_append_eq, h1, h2, ht, htd,
    isPre_nil_left, Bool.false_and, Bool.and_self, Bool.false_eq_true,
    if_false, jsIndex1, hsplit]
  simp [jsParseFloatChars_cons_space]

/-- The `Revisit Probability` line assigns `revisitProbability`
likewise. -/
theorem pdl_rp (p : ParsedDecision) (x : List Char) (hx : ':' ∉ x) :
    parseDecisionLine p ("Revisit Probability: ".data ++ x) =
      { p with revisitProbability := jsParseFloatChars x } := by
  have h1 : isPre
      ("Decision Type:".data.take "Revisit Probability: ".data.length)
      "Revisit Probability: ".data = false := by decide
  have h2 : isPre ("Chosen:".data.take "Revisit Probability: ".data.length)
      "Revisit Probability: ".data = false := by decide
  have h3 : isPre
      ("Confidence:".data.take "Revisit Probability: ".data.length)
      "Revisit Probability: ".data = false := by decide
  have ht : isPre
      ("Revisit Probability:".data.take "Revisit Probability: ".data.length)
      "Revisit Probability: ".data = true := by decide
  have htd : "Revisit Probability:".data.drop
      "Revisit Probability: ".data.length = ([] : List Char) := by decide
  have hxcons : (':' : Char) ∉ (' ' :: x) := by
    intro hm
    rcases List.mem_cons.mp hm with h | h
    · exact absurd h (by decide)
    · exact hx h
  have he : "Revisit Probability: ".data ++ x =
      "Revisit Probability".data ++ (':' :: (' ' :: x)) := by
    have e0 : "Revisit Probability: ".data =
        "Revisit Probability".data ++ [':', ' '] := by decide
    rw [e0]
    simp
  have hsplit : jsSplitChars ':' ("Revisit Probability: ".data ++ x) =
      ["Revisit Probability".data, ' ' :: x] := by
    rw [he, jsSplitChars_seg ':' _ _ (by decide),
      jsSplitChars_no_sep ':' _ hxcons]
  simp only [parseDecisionLine, isPre_append_eq, h1, h2, h3, ht, htd,
    isPre_nil_left, Bool.false_and, Bool.and_self, Bool.false_eq_true,
    if_false, jsIndex1, hsplit]
  simp [jsParseFloatChars_cons_space]

/-- Concatenation of lines, each terminated by a newline. -/
def joinNL : List (List Char) → List Char
  | [] => []
  | l :: rest => l ++ '\n' :: joinNL rest

/-- Splitting a newline-joined block recovers the lines plus the trailing
empty field produced by the final newline. -/
theorem jsSplit_joinNL (lines : List (List Char))
    (h : ∀ l ∈ lines, '\n' ∉ l) :
    jsSplitChars '\n' (joinNL lines) = lines ++ [[]] := by
  induction lines with
  | nil => rfl
  | cons l rest ih =>
    rw [joinNL, jsSplitChars_seg '\n' l _ (h l (List.mem_cons_self l rest)),
      ih (fun m hm => h m (List.mem_cons_of_mem l hm))]
    rfl

/-- No newline occurs in a label-plus-value line when the value has
none. -/
theorem no_nl_append (lit x : List Char) (h1 : '\n' ∉ lit)
    (h2 : '\n' ∉ x) : '\n' ∉ lit ++ x := fun hm =>
  (List.mem_append.mp hm).elim h1 h2

/-- The commit message is the newline-join of its ten lines. -/
theorem commitMessage_joinNL (d : DecisionInput) (ts : String) :
    (buildCommitMessage d ts).data = joinNL
      ["decision: ".data ++ d.name.data, [],
       "Decision Type: ".data ++ d.type.data,
       "Alternatives Considered: ".data ++ (joinComma d.alternatives).data,
       "Chosen: ".data ++ d.chosen.data,
       "Reason: ".data ++ d.reason.data,
       "Confidence: ".data ++ (qToDecimalString d.confidence).data,
       "Revisit Probability: ".data ++
         (qToDecimalString d.revisitProbability).data,
       "Timestamp: ".data ++ ts.data] := by
  simp [buildCommitMessage, joinNL, strData_append, data_nl, data_nlnl]

/-- Splitting the commit message at newlines yields exactly the subject
line, a blank line, the six labelled field lines, the timestamp line and a
trailing empty field — provided no interpolated value smuggles in a
newline. -/
theorem commitMessage_split (d : DecisionInput) (ts : String)
    (hnm : '\n' ∉ d.name.data) (hty : '\n' ∉ d.type.data)
    (hal : '\n' ∉ (joinComma d.alternatives).data)
    (hch : '\n' ∉ d.chosen.data) (hre : '\n' ∉ d.reason.data)
    (hcf : '\n' ∉ (qToDecimalString d.confidence).data)
    (hrp : '\n' ∉ (qToDecimalString d.revisitProbability).data)
    (hts : '\n' ∉ ts.data) :
    jsSplitChars '\n' (buildCommitMessage d ts).data =
      ["decision: ".data ++ d.name.data, [],
       "Decision Type: ".data ++ d.type.data,
       "Alternatives Considered: ".data ++ (joinComma d.alternatives).data,
       "Chosen: ".data ++ d.chosen.data,
       "Reason: ".data ++ d.reason.data,
       "Confidence: ".data ++ (qToDecimalString d.confidence).data,
       "Revisit Probability: ".data ++
         (qToDecimalString d.revisitProbability).data,
       "Timestamp: ".data ++ ts.data, []] := by
  rw [commitMessage_joinNL, jsSplit_joinNL]
  · rfl
  · intro l hl
    simp only [List.mem_cons] at hl
    rcases hl with rfl | rfl | rfl | rfl | rfl | rfl | rfl | rfl | rfl | hl
    · exact no_nl_append _ _ (by decide) hnm
    · simp
    · exact no_nl_append _ _ (by decide) hty
    · exact no_nl_append _ _ (by decide) hal
    · exact no_nl_append _ _ (by decide) hch
    · exact no_nl_append _ _ (by decide) hre
    · exact no_nl_append _ _ (by decide) hcf
    · exact no_nl_append _ _ (by decide) hrp
    · exact no_nl_append _ _ (by decide) hts
    · simp at hl

/-- C7 (amended): the commit message carries the labelled fields in the
contract order `Decision Type`, `Alternatives Considered`, `Chosen`,
`Reason`, `Confidence`, `Revisit Probability`, followed by an additional
`Timestamp` field (and no `Context`/reversal marker).  Round-trip recovery
of type, chosen, confidence and revisit probability holds for every
decision whose type and chosen value contain no colon, whose interpolated
values contain no newline, whose type and chosen value carry no
surrounding whitespace, and whose scores' decimal renderings re-parse
exactly (true of the plain decimals the program uses). -/
theorem c7_amended_roundtrip (d : DecisionInput) (ts : String)
    (hnm : '\n' ∉ d.name.data)
    (hty_n : '\n' ∉ d.type.data) (hty_c : ':' ∉ d.type.data)
    (hty_t : jsTrimChars d.type.data = d.type.data)
    (hal : '\n' ∉ (joinComma d.alternatives).data)
    (hch_n : '\n' ∉ d.chosen.data) (hch_c : ':' ∉ d.chosen.data)
    (hch_t : jsTrimChars d.chosen.data = d.chosen.data)
    (hre : '\n' ∉ d.reason.data)
    (hcf_n : '\n' ∉ (qToDecimalString d.confidence).data)
    (hcf_c : ':' ∉ (qToDecimalString d.confidence).data)
    (hcf_p : jsParseFloatChars (qToDecimalString d.confidence).data =
      some d.confidence)
    (hrp_n : '\n' ∉ (qToDecimalString d.revisitProbability).data)
    (hrp_c : ':' ∉ (qToDecimalString d.revisitProbability).data)
    (hrp_p : jsParseFloatChars
      (qToDecimalString d.revisitProbability).data =
        some d.revisitProbability)
    (hts : '\n' ∉ ts.data) :
    parseDecisionFromCommit (buildCommitMessage d ts) =
      { type := some d.type, chosen := some d.chosen,
        confidence := some d.confidence,
        revisitProbability := some d.revisitProbability } := by
  simp only [parseDecisionFromCommit]
  rw [commitMessage_split d ts hnm hty_n hal hch_n hre hcf_n hrp_n hts]
  simp only [List.foldl_cons, List.foldl_nil]
  rw [pdl_name, pdl_empty, pdl_type _ _ hty_c hty_t, pdl_alts,
    pdl_chosen _ _ hch_c hch_t, pdl_reason, pdl_conf _ _ hcf_c,
    pdl_rp _ _ hrp_c, pdl_ts, hcf_p, hrp_p, strMk_data, strMk_data]

/-- Witness for `c7_amended_roundtrip`: the PostgreSQL decision of the
spec scenario round-trips exactly. -/
theorem c7_amended_witness :
    parseDecisionFromCommit (buildCommitMessage pgDecision tsA) =
      { type := some "technology-choice", chosen := some "PostgreSQL",
        confidence := some (mkRat 85 100),
        revisitProbability := some (mkRat 5 100) } :=
  c7_amended_roundtrip pgDecision tsA (by decide) (by decide) (by decide)
    (by decide) (by decide) (by decide) (by decide) (by decide) (by decide)
    (by decide) (by decide) (by decide) (by decide) (by decide) (by decide)
    (by decide)
